import Mathlib

/-!
# Pt5-Revision: sorting utilities, session log and controller

A shallow embedding of `src/sorter.cpp`, `src/logger.cpp` and `src/main.cpp`.

Modelling conventions.

* A C array `int numberList[]` is a `List Int`.  Element values are only copied and
  compared, so no machine arithmetic is needed on them.
* C `int` indices are `Int` where the source can pass a negative one (`mergeSort` is
  called with `high = -1` on an empty array) and `Nat` for the counters of counted
  `for` loops.
* A `while` loop is run with fuel; running out of fuel while the condition still holds
  yields `none`.
* The variable-length local `tempArray` of `merge` is a store together with a log of the
  indices written; its declared extent is `tempArrayLength`, and `merge` has a result
  only when every index written or read lies inside it.  So a result `some r` always
  means that every loop left by its condition and no access left the buffer.
* The midpoint `(low + high) / 2` of `mergeSort` is computed on 32-bit `int`
  (`midpoint32`).
-/

namespace Pt5

/-! ## Array access -/

/-- Value of `numberList[i]` for a C `int` index (0 outside the list). -/
def readAt (numberList : List Int) (i : Int) : Int :=
  if i < 0 then 0 else numberList.getD i.toNat 0

/-- Effect of `numberList[i] = v` for a C `int` index. -/
def writeAt (numberList : List Int) (i : Int) (v : Int) : List Int :=
  if i < 0 then numberList else numberList.set i.toNat v

/-! ## sorter.cpp: bubbleSort -/

/-- Body of the inner loop of `bubbleSort` (sorter.cpp lines 35-48): compare the adjacent
pair at `j`, `j + 1` and exchange it when it is out of order for the direction. -/
def swapStep (sortAscended : Bool) (numberList : List Int) (j : Nat) : List Int :=
  if sortAscended && decide (numberList.getD j 0 > numberList.getD (j + 1) 0) then
    (numberList.set j (numberList.getD (j + 1) 0)).set (j + 1) (numberList.getD j 0)
  else if !sortAscended && decide (numberList.getD j 0 < numberList.getD (j + 1) 0) then
    (numberList.set j (numberList.getD (j + 1) 0)).set (j + 1) (numberList.getD j 0)
  else numberList

/-- Inner loop `for (int j = 0; j < size - i - 1; j++)` of pass `i`. -/
def bubblePass (sortAscended : Bool) (size i : Nat) (numberList : List Int) : List Int :=
  (List.range (size - i - 1)).foldl (swapStep sortAscended) numberList

/-- The function `bubbleSort(numberList, sortAscended, size)`: the outer loop
`for (int i = 0; i < size; i++)` around the inner loop. -/
def bubbleSort (numberList : List Int) (sortAscended : Bool) (size : Nat) : List Int :=
  (List.range size).foldl
    (fun (l : List Int) (i : Nat) => bubblePass sortAscended size i l) numberList

/-- Number of element comparisons (`numberList[j] > numberList[j + 1]` or
`numberList[j] < numberList[j + 1]`) evaluated by one run of the body of the inner loop of
`bubbleSort`.  `&&` evaluates its right operand only when the left one is true, and the
`else if` condition is evaluated only when the first condition is false. -/
def swapStepComparisons (sortAscended : Bool) (numberList : List Int) (j : Nat) : Nat :=
  if sortAscended && decide (numberList.getD j 0 > numberList.getD (j + 1) 0) then
    (if sortAscended then 1 else 0)
  else (if sortAscended then 1 else 0) + (if !sortAscended then 1 else 0)

/-- The inner loop of `bubbleSort` on the array together with a counter of the element
comparisons made so far. -/
def bubblePassCounted (sortAscended : Bool) (size i : Nat) (p : List Int × Nat) :
    List Int × Nat :=
  (List.range (size - i - 1)).foldl
    (fun (q : List Int × Nat) (j : Nat) =>
      (swapStep sortAscended q.1 j, q.2 + swapStepComparisons sortAscended q.1 j)) p

/-- The function `bubbleSort` with the comparison counter: the resulting array and the
number of element comparisons made. -/
def bubbleSortCounted (numberList : List Int) (sortAscended : Bool) (size : Nat) :
    List Int × Nat :=
  (List.range size).foldl
    (fun (q : List Int × Nat) (i : Nat) => bubblePassCounted sortAscended size i q)
    (numberList, 0)

/-! ## sorter.cpp: merge and mergeSort -/

/-- A `while (cond) body` loop run with fuel; `none` when the fuel is used up while the
condition still holds. -/
def whileLoop {σ : Type} (cond : σ → Bool) (body : σ → σ) : Nat → σ → Option σ
  | 0, s => if cond s then none else some s
  | fuel + 1, s => if cond s then whileLoop cond body fuel (body s) else some s

/-- Local variables of `merge`: the cursors `i`, `j`, `k`, the temporary buffer, and the
log of buffer indices written so far (most recent first). -/
structure MergeState where
  i : Int
  j : Int
  k : Int
  tempArray : Int → Int
  written : List Int

/-- The statement `tempArray[k++] = numberList[i++]`. -/
def takeLeft (numberList : List Int) (s : MergeState) : MergeState :=
  { i := s.i + 1, j := s.j, k := s.k + 1,
    tempArray := Function.update s.tempArray s.k (readAt numberList s.i),
    written := s.k :: s.written }

/-- The statement `tempArray[k++] = numberList[j++]`. -/
def takeRight (numberList : List Int) (s : MergeState) : MergeState :=
  { i := s.i, j := s.j + 1, k := s.k + 1,
    tempArray := Function.update s.tempArray s.k (readAt numberList s.j),
    written := s.k :: s.written }

/-- Body of the main `while` loop of `merge` (sorter.cpp lines 105-126). -/
def mergeStep (numberList : List Int) (sortAscended : Bool) (s : MergeState) : MergeState :=
  if sortAscended then
    if readAt numberList s.i < readAt numberList s.j then takeLeft numberList s
    else takeRight numberList s
  else
    if readAt numberList s.i > readAt numberList s.j then takeLeft numberList s
    else takeRight numberList s

/-- The three `while` loops of `merge` (sorter.cpp lines 98-139), from the initial
assignments `i = low; k = low; j = mid + 1`. -/
def mergeLoops (numberList : List Int) (low high mid : Int) (sortAscended : Bool) :
    Option MergeState := do
  let s0 : MergeState :=
    { i := low, j := mid + 1, k := low, tempArray := fun _ => 0, written := [] }
  let s1 ← whileLoop (fun s => decide (s.i ≤ mid) && decide (s.j ≤ high))
    (mergeStep numberList sortAscended) ((mid - low + 1).toNat + (high - mid).toNat) s0
  let s2 ← whileLoop (fun s => decide (s.i ≤ mid)) (takeLeft numberList)
    (mid - s1.i + 1).toNat s1
  whileLoop (fun s => decide (s.j ≤ high)) (takeRight numberList) (high - s2.j + 1).toNat s2

/-- The copy-back loop `for (i = low; i < k; i++) numberList[i] = tempArray[i]`. -/
def copyBack (numberList : List Int) (tempArray : Int → Int) (low k : Int) : List Int :=
  (List.range (k - low).toNat).foldl
    (fun (l : List Int) (t : Nat) => writeAt l (low + (t : Int)) (tempArray (low + (t : Int))))
    numberList

/-- Number of elements of the local array declared as `int tempArray[high]`
(sorter.cpp line 93). -/
def tempArrayLength (high : Int) : Int := high

/-- Whether index `idx` lies inside the array declared as `int tempArray[high]`. -/
def inTempArray (high idx : Int) : Bool :=
  decide (0 ≤ idx) && decide (idx < tempArrayLength high)

/-- Indices of `tempArray` read by the copy-back loop when it runs from `low` up to `k`. -/
def copyBackReads (low k : Int) : List Int :=
  (List.range (k - low).toNat).map (fun (t : Nat) => low + (t : Int))

/-- The function `merge(numberList, low, high, mid, sortAscended)`.  The buffer is the
local array declared as `int tempArray[high]`: the call has a result only when every
index written by the three loops and every index read by the copy-back loop lies inside
that array.  An access outside it is undefined behaviour, for which no result is
defined: `none`, as when a loop does not finish. -/
def merge (numberList : List Int) (low high mid : Int) (sortAscended : Bool) :
    Option (List Int) :=
  match mergeLoops numberList low high mid sortAscended with
  | none => none
  | some s =>
    if s.written.all (inTempArray high) && (copyBackReads low s.k).all (inTempArray high) then
      some (copyBack numberList s.tempArray low s.k)
    else none

/-- Value of a 32-bit two's complement `int` holding `x` modulo `2 ^ 32`. -/
def wrapInt32 (x : Int) : Int := (x + 2147483648) % 4294967296 - 2147483648

/-- The expression `(low + high) / 2` of `mergeSort` computed on 32-bit `int`: the sum
wraps at 32 bits and the division truncates toward zero. -/
def midpoint32 (low high : Int) : Int := Int.tdiv (wrapInt32 (low + high)) 2

/-- The recursion of `mergeSort` with a bound on its depth; `none` when the bound is
reached on a segment that still has to be split, or when a call of `merge` has no
result. -/
def mergeSortAux : Nat → List Int → Bool → Int → Int → Option (List Int)
  | 0, numberList, _, low, high => if low < high then none else some numberList
  | fuel + 1, numberList, sortAscended, low, high =>
    if low < high then do
      let mid := midpoint32 low high
      let l1 ← mergeSortAux fuel numberList sortAscended low mid
      let l2 ← mergeSortAux fuel l1 sortAscended (mid + 1) high
      merge l2 low high mid sortAscended
    else some numberList

/-- The function `mergeSort(numberList, sortAscended, low, high)`; the depth bound is the
length of the segment. -/
def mergeSort (numberList : List Int) (sortAscended : Bool) (low high : Int) :
    Option (List Int) :=
  mergeSortAux (high - low + 1).toNat numberList sortAscended low high

/-- The calls of `merge` made by `mergeSort(_, _, low, high)`, as `(low, high, mid)`
triples in the order they are made.  `mergeSort` itself has no array access: every read
or write of an element happens inside one of these calls. -/
def mergeCallsAux : Nat → Int → Int → List (Int × Int × Int)
  | 0, _, _ => []
  | fuel + 1, low, high =>
    if low < high then
      mergeCallsAux fuel low (midpoint32 low high) ++
        mergeCallsAux fuel (midpoint32 low high + 1) high ++
        [(low, high, midpoint32 low high)]
    else []

/-- Calls of `merge` made by `mergeSort(_, _, low, high)`. -/
def mergeCalls (low high : Int) : List (Int × Int × Int) :=
  mergeCallsAux (high - low + 1).toNat low high

/-- The recursion of `mergeSort(_, _, low, high)` without the array: whether the call
returns when the recursion is cut at depth `fuel`, every call of `merge` being taken to
return.  The indices of the recursive calls do not depend on the contents of the array. -/
def mergeSortReturns : Nat → Int → Int → Bool
  | 0, low, high => !decide (low < high)
  | fuel + 1, low, high =>
    if low < high then
      mergeSortReturns fuel low (midpoint32 low high) &&
        mergeSortReturns fuel (midpoint32 low high + 1) high
    else true

/-! ## logger.cpp -/

/-- The data members of `Logger`. -/
structure Logger where
  tt : Int
  timeStamp : String
  fileName : String
  pathFile : String

/-- What the program can observe of one file: whether opening it for append succeeds, and
the text it holds (empty for a file that does not exist yet). -/
structure FileState where
  canOpen : Bool
  content : String

/-- The files, by path. -/
abbrev FileSystem := String → FileState

/-- Decimal rendering `std::to_string(int)`. -/
def to_string (v : Int) : String := toString v

/-- The string `fullList` that `Logger::displayNumberList` builds (logger.cpp lines
128-140): each element rendered, a hyphen after every element but the one at index
`size - 1`, then two newlines. -/
def displayNumberListText (numList : List Int) (size : Nat) : String :=
  (List.range size).foldl
    (fun (fullList : String) (i : Nat) =>
      if i ≠ size - 1 then fullList ++ to_string (numList.getD i 0) ++ "-"
      else fullList ++ to_string (numList.getD i 0)) "" ++ "\n\n"

/-- The path of `Logger::createNewLog` taken when `getNumberList` is false: open the file
in append mode, return when it is not open, else write `message` and close. -/
def createNewLogText (lg : Logger) (fs : FileSystem) (message : String) : FileSystem :=
  if !(fs lg.pathFile).canOpen then fs
  else Function.update fs lg.pathFile
    { canOpen := true, content := (fs lg.pathFile).content ++ message }

/-- The function `Logger::displayNumberList(numList, size)`: build the text and call
`createNewLog(fullList, false, nullptr, 0)`. -/
def displayNumberList (lg : Logger) (fs : FileSystem) (numList : List Int) (size : Nat) :
    FileSystem :=
  createNewLogText lg fs (displayNumberListText numList size)

/-- The function `Logger::createNewLog(message, getNumberList, numList, size)`.  It
returns nothing to its caller; its only effect is on the files. -/
def createNewLog (lg : Logger) (fs : FileSystem) (message : String) (getNumberList : Bool)
    (numList : List Int) (size : Nat) : FileSystem :=
  if !(fs lg.pathFile).canOpen then fs
  else if getNumberList then displayNumberList lg fs numList size
  else Function.update fs lg.pathFile
    { canOpen := true, content := (fs lg.pathFile).content ++ message }

/-- A reading of the clock: the `time_t` value `system_clock::to_time_t(system_clock::now())`
and the text that `ctime` renders it as. -/
structure Clock where
  tt : Int
  text : String

/-- The fields of the broken-down local time `tm` that the constructor reads. -/
structure Tm where
  tm_year : Int
  tm_mon : Int
  tm_mday : Int

/-- The constructor `Logger::Logger()` (logger.cpp lines 30-67), given the clock reading
and the broken-down local time of that moment. -/
def newLogger (now : Clock) (local_tm : Tm) : Logger :=
  let pathFile := "Logs/"
  let fileName := to_string (local_tm.tm_year + 1900)
  let fileName := fileName ++ "-"
  let fileName := fileName ++ to_string (local_tm.tm_mon + 1)
  let fileName := fileName ++ "-"
  let fileName := fileName ++ to_string local_tm.tm_mday
  let fileName := fileName ++ ".txt"
  { tt := now.tt, timeStamp := now.text, fileName := fileName,
    pathFile := pathFile ++ fileName }

/-- The function `Logger::setTimeStamp()`: refresh `tt` and `timeStamp` from the clock. -/
def setTimeStamp (lg : Logger) (now : Clock) : Logger :=
  { lg with tt := now.tt, timeStamp := now.text }

/-- The function `Logger::getTimeStamp()`: call `setTimeStamp` and return `timeStamp`. -/
def getTimeStamp (lg : Logger) (now : Clock) : Logger × String :=
  (setTimeStamp lg now, (setTimeStamp lg now).timeStamp)

/-- A call of one of the operations of `Logger` after construction, with its arguments
and, where the operation reads the clock, the clock reading it gets. -/
inductive LoggerCall where
  | setTimeStamp (now : Clock)
  | getTimeStamp (now : Clock)
  | createNewLog (message : String) (getNumberList : Bool) (numList : List Int) (size : Nat)
  | displayNumberList (numList : List Int) (size : Nat)

/-- Effect of one call on the logger object and the files. -/
def runLoggerCall (s : Logger × FileSystem) : LoggerCall → Logger × FileSystem
  | LoggerCall.setTimeStamp now => (setTimeStamp s.1 now, s.2)
  | LoggerCall.getTimeStamp now => ((getTimeStamp s.1 now).1, s.2)
  | LoggerCall.createNewLog message getNumberList numList size =>
    (s.1, createNewLog s.1 s.2 message getNumberList numList size)
  | LoggerCall.displayNumberList numList size => (s.1, displayNumberList s.1 s.2 numList size)

/-! ## main.cpp -/

/-- Upper bound of the generated values, `const int LIMIT = 1000`. -/
def LIMIT : Nat := 1000

/-- The function `fillList(nums, size)`: `nums[i] = (rand() % LIMIT) + 1` for
`i = 0, ..., size - 1`, where `rand i` is the value returned by the call of `rand()` made
in iteration `i`. -/
def fillList (nums : List Int) (size : Nat) (rand : Nat → Nat) : List Int :=
  (List.range size).foldl
    (fun (l : List Int) (i : Nat) => l.set i (((rand i % LIMIT : Nat) : Int) + 1)) nums

/-- Outcome of the size prompt of menu case '4': the value left in `arraySize`, how many
times the error message was printed, and the input not yet consumed. -/
structure SizePrompt where
  arraySize : Int
  errors : Nat
  rest : List Int

/-- The validation loop of menu case '4' (main.cpp lines 112-119) over the integers
entered: each iteration reads one value into `arraySize`, prints the error message when
it is below 10 or above 999, and repeats on the same condition.  `none` when the input
ends before a value is accepted: the loop is still prompting. -/
def readArraySize : List Int → Nat → Option SizePrompt
  | [], _ => none
  | v :: rest, errors =>
    if v < 10 || v > 999 then readArraySize rest (errors + 1)
    else some { arraySize := v, errors := errors, rest := rest }

/-- Menu case '4' up to the logging: run the size prompt, allocate
`new int[arraySize]` and fill it; the result is the new `arraySize` and `numberList`. -/
def regenerate (input : List Int) (rand : Nat → Nat) : Option (Int × List Int) :=
  match readArraySize input 0 with
  | none => none
  | some p =>
    some (p.arraySize, fillList (List.replicate p.arraySize.toNat 0) p.arraySize.toNat rand)

/-- The function `askSessionLog()`, given the character read. -/
def askSessionLog (userInput : Char) : Bool := userInput == '1'

/-- The function `determineSortOrder()`, given the character read. -/
def determineSortOrder (input : Char) : Bool := input == 'A' || input == 'a'

/-- The function `sortLogger(Logs, sortAscended, numberList, arraySize)`; `Logs` is `none`
for a null pointer. -/
def sortLogger (Logs : Option Logger) (fs : FileSystem) (sortAscended : Bool)
    (numberList : List Int) (arraySize : Nat) (now : Clock) : Option Logger × FileSystem :=
  match Logs with
  | none => (none, fs)
  | some lg =>
    let stamped := getTimeStamp lg now
    let fs1 :=
      if sortAscended then
        createNewLog stamped.1 fs (stamped.2 ++ "Reorganized numbers in ascending order: \n")
          false [] 0
      else
        createNewLog stamped.1 fs (stamped.2 ++ "Reorganized numbers in descending order: \n")
          false [] 0
    (some stamped.1, createNewLog stamped.1 fs1 "" true numberList arraySize)

/-- The variables of `main` that the menu loop reads or writes, and the files.  Console
output is not part of the state. -/
structure Session where
  arraySize : Int
  numberList : List Int
  loggedSession : Bool
  Logs : Option Logger
  files : FileSystem
  running : Bool

/-- What one iteration of the menu loop takes from outside: the command character, the
character read by `determineSortOrder` (cases '1' and '2'), the integers entered at the
size prompt and the values returned by `rand()` (case '4'), and the clock reading for the
log entry. -/
structure MenuInput where
  userInput : Char
  order : Char
  sizes : List Int
  rand : Nat → Nat
  now : Clock

/-- The state of `main` when the menu loop is entered (main.cpp lines 33-60). -/
def initialSession (now : Clock) (local_tm : Tm) (rand : Nat → Nat) (userInput : Char)
    (files : FileSystem) : Session :=
  let Logs := newLogger now local_tm
  let arraySize : Nat := 50
  let numberList := fillList (List.replicate arraySize 0) arraySize rand
  let loggedSession := askSessionLog userInput
  { arraySize := arraySize, numberList := numberList, loggedSession := loggedSession,
    Logs := if loggedSession then some Logs else none, files := files, running := true }

/-- One iteration of the body of the menu loop: the `switch (userInput)` of main.cpp lines
78-142.  `none` when the iteration does not complete (the size prompt of case '4' is still
waiting for a valid value). -/
def menuStep (st : Session) (inp : MenuInput) : Option Session :=
  if inp.userInput = '1' then
    let sortAscended := determineSortOrder inp.order
    let numberList := bubbleSort st.numberList sortAscended st.arraySize.toNat
    let logged :=
      if st.loggedSession && st.Logs.isSome then
        sortLogger st.Logs st.files sortAscended numberList st.arraySize.toNat inp.now
      else (st.Logs, st.files)
    some { st with numberList := numberList, Logs := logged.1, files := logged.2 }
  else if inp.userInput = '2' then
    let sortAscended := determineSortOrder inp.order
    match mergeSort st.numberList sortAscended 0 (st.arraySize - 1) with
    | none => none
    | some numberList =>
      let logged :=
        if st.loggedSession && st.Logs.isSome then
          sortLogger st.Logs st.files sortAscended numberList st.arraySize.toNat inp.now
        else (st.Logs, st.files)
      some { st with numberList := numberList, Logs := logged.1, files := logged.2 }
  else if inp.userInput = '3' then
    some st
  else if inp.userInput = '4' then
    match regenerate inp.sizes inp.rand with
    | none => none
    | some (arraySize, numberList) =>
      let logged :=
        match st.loggedSession, st.Logs with
        | true, some lg =>
          let stamped := getTimeStamp lg inp.now
          let fs1 := createNewLog stamped.1 st.files
            (stamped.2 ++ "Generated a new set of numbers: \n") false [] 0
          (some stamped.1, createNewLog stamped.1 fs1 "" true numberList arraySize.toNat)
        | _, _ => (st.Logs, st.files)
      some { st with arraySize := arraySize, numberList := numberList, Logs := logged.1,
                     files := logged.2 }
  else if inp.userInput = '5' then
    some { st with running := false }
  else
    some st

/-- The states of `main` at the head of the menu loop: the state in which the loop is
entered, and the state after each completed iteration made while `running` holds. -/
inductive Reachable (init : Session) : Session → Prop where
  | start : Reachable init init
  | step (st st' : Session) (inp : MenuInput) :
      Reachable init st → st.running = true → menuStep st inp = some st' → Reachable init st'

/-- The data invariant of the sequence: size between 10 and 999, as many elements as the
size, each element between 1 and 1000. -/
def SequenceOk (st : Session) : Prop :=
  10 ≤ st.arraySize ∧ st.arraySize ≤ 999 ∧ (st.numberList.length : Int) = st.arraySize ∧
    ∀ x ∈ st.numberList, 1 ≤ x ∧ x ≤ 1000

/-! ## Concrete instances -/

/-- A session at the head of the menu loop, used as a concrete instance: logging declined,
all 50 elements equal to 1. -/
def exampleStart : Session :=
  initialSession { tt := 0, text := "" } { tm_year := 124, tm_mon := 2, tm_mday := 7 }
    (fun _ => 0) 'n' (fun _ => { canOpen := true, content := "" })

/-- The command '2' with the direction 'A'. -/
def exampleMergeSort : MenuInput :=
  { userInput := '2', order := 'A', sizes := [], rand := fun _ => 0,
    now := { tt := 0, text := "" } }

/-- Two values are in the order of the direction: `x ≤ y` ascending, `y ≤ x` descending. -/
def inOrder (sortAscended : Bool) (x y : Int) : Prop :=
  if sortAscended then x ≤ y else y ≤ x

instance inOrderDecidable (sortAscended : Bool) (x y : Int) :
    Decidable (inOrder sortAscended x y) := by
  unfold inOrder; infer_instance

/-- A list is arranged for the direction: non-decreasing when ascending, non-increasing
when descending. -/
def orderedIn (sortAscended : Bool) (l : List Int) : Prop :=
  if sortAscended then List.Sorted (fun x y => x ≤ y) l else List.Sorted (fun x y => x ≥ y) l

/-- The comparison of `mergeStep`: whether the left head is the one taken. -/
def pickLeft (sortAscended : Bool) (x y : Int) : Bool :=
  if sortAscended then decide (x < y) else decide (x > y)

/-- Elements of `a` at the indices `p, p + 1, ..., q - 1`. -/
def slice (a : List Int) (p q : Int) : List Int :=
  (a.drop p.toNat).take (q - p).toNat

/-- Contents of the temporary buffer at the indices `low, ..., k - 1`. -/
def tempSlice (temp : Int → Int) (low k : Int) : List Int :=
  (List.range (k - low).toNat).map (fun (t : Nat) => temp (low + (t : Int)))

/-- The rendering the specification gives for a number list: `v0-v1-...-vN`. -/
def hyphenJoined (S : List Int) : String := String.intercalate "-" (S.map to_string)

/-! ## Loop invariants -/

/-- Facts established by the first `m` iterations of the inner loop. -/
structure PassInv (b : Bool) (l0 l : List Int) (m : Nat) : Prop where
  len : l.length = l0.length
  perm : List.Perm l l0
  above : ∀ k, m < k → l.getD k 0 = l0.getD k 0
  top : ∀ t, t ≤ m → inOrder b (l.getD t 0) (l.getD m 0)
  from_prefix : ∀ t, t ≤ m → ∃ s, s ≤ m ∧ l.getD t 0 = l0.getD s 0

/-- Facts established by the first `i` passes of the outer loop over a list of length `n`. -/
structure SortInv (b : Bool) (l0 l : List Int) (i : Nat) : Prop where
  len : l.length = l0.length
  perm : List.Perm l l0
  tail_sorted : ∀ p q, l0.length - i ≤ p → p < q → q < l0.length →
    inOrder b (l.getD p 0) (l.getD q 0)
  tail_dominates : ∀ p q, p < l0.length - i → l0.length - i ≤ q → q < l0.length →
    inOrder b (l.getD p 0) (l.getD q 0)

/-- Invariant of the three merging loops of `merge`. -/
structure MergeInv (a : List Int) (low high mid : Int) (b : Bool) (s : MergeState) : Prop where
  lo_i : low ≤ s.i
  i_hi : s.i ≤ mid + 1
  lo_j : mid + 1 ≤ s.j
  j_hi : s.j ≤ high + 1
  k_eq : s.k = s.i + s.j - (mid + 1)
  content : tempSlice s.tempArray low s.k ++
      List.merge (slice a s.i (mid + 1)) (slice a s.j (high + 1)) (pickLeft b) =
    List.merge (slice a low (mid + 1)) (slice a (mid + 1) (high + 1)) (pickLeft b)
  log : s.written = (copyBackReads low s.k).reverse

/-! ## bubbleSort: lemmas -/

theorem inOrder_refl (b : Bool) (x : Int) : inOrder b x x := by
  unfold inOrder; split <;> exact le_refl x

theorem inOrder_trans {b : Bool} {x y z : Int} (h1 : inOrder b x y) (h2 : inOrder b y z) :
    inOrder b x z := by
  unfold inOrder at *; split at h1 <;> simp_all <;> omega

theorem inOrder_total (b : Bool) (x y : Int) : inOrder b x y ∨ inOrder b y x := by
  unfold inOrder; split <;> omega

theorem inOrder_antisymm {b : Bool} {x y : Int} (h1 : inOrder b x y) (h2 : inOrder b y x) :
    x = y := by
  unfold inOrder at *; split at h1 <;> simp_all <;> omega

theorem getD_set_eq (l : List Int) (i k : Nat) (v d : Int) :
    (l.set i v).getD k d = if i = k ∧ i < l.length then v else l.getD k d := by
  simp only [List.getD_eq_getElem?_getD, List.getElem?_set]
  by_cases h : i = k
  · subst h
    by_cases h2 : i < l.length
    · simp [h2]
    · simp [h2, List.getElem?_eq_none (Nat.le_of_not_lt h2)]
  · simp [h]

theorem swapStep_eq (b : Bool) (l : List Int) (j : Nat) :
    swapStep b l j = if inOrder b (l.getD j 0) (l.getD (j + 1) 0) then l
      else (l.set j (l.getD (j + 1) 0)).set (j + 1) (l.getD j 0) := by
  unfold swapStep inOrder
  cases b <;> simp only [Bool.false_and, Bool.true_and, Bool.not_false, Bool.not_true,
    decide_eq_true_eq, if_false, if_true, Bool.false_eq_true, gt_iff_lt] <;>
    split_ifs <;> first | rfl | omega

theorem swapStep_length (b : Bool) (l : List Int) (j : Nat) :
    (swapStep b l j).length = l.length := by
  rw [swapStep_eq]; split_ifs <;> simp

theorem swapStep_getD_of_ne (b : Bool) (l : List Int) (j k : Nat) (h1 : k ≠ j) (h2 : k ≠ j + 1) :
    (swapStep b l j).getD k 0 = l.getD k 0 := by
  rw [swapStep_eq]; split_ifs
  · rfl
  · rw [getD_set_eq, getD_set_eq]
    rw [if_neg (by omega), if_neg (by omega)]

theorem swapStep_pair (b : Bool) (l : List Int) (j : Nat) (hj : j + 1 < l.length) :
    inOrder b ((swapStep b l j).getD j 0) ((swapStep b l j).getD (j + 1) 0) ∧
    (((swapStep b l j).getD j 0 = l.getD j 0 ∧ (swapStep b l j).getD (j + 1) 0 = l.getD (j + 1) 0) ∨
     ((swapStep b l j).getD j 0 = l.getD (j + 1) 0 ∧ (swapStep b l j).getD (j + 1) 0 = l.getD j 0)) := by
  rw [swapStep_eq]
  by_cases h : inOrder b (l.getD j 0) (l.getD (j + 1) 0)
  · rw [if_pos h]; exact ⟨h, Or.inl ⟨rfl, rfl⟩⟩
  · rw [if_neg h]
    have e1 : ((l.set j (l.getD (j + 1) 0)).set (j + 1) (l.getD j 0)).getD j 0 = l.getD (j + 1) 0 := by
      rw [getD_set_eq, getD_set_eq, if_neg (by omega), if_pos ⟨rfl, by omega⟩]
    have e2 : ((l.set j (l.getD (j + 1) 0)).set (j + 1) (l.getD j 0)).getD (j + 1) 0 = l.getD j 0 := by
      rw [getD_set_eq, if_pos ⟨rfl, by simp; omega⟩]
    rw [e1, e2]
    refine ⟨?_, Or.inr ⟨rfl, rfl⟩⟩
    rcases inOrder_total b (l.getD j 0) (l.getD (j + 1) 0) with h' | h'
    · exact absurd h' h
    · exact h'

theorem set_set_perm (l : List Int) (j : Nat) (hj : j + 1 < l.length) :
    List.Perm ((l.set j (l.getD (j + 1) 0)).set (j + 1) (l.getD j 0)) l := by
  induction l generalizing j with
  | nil => simp at hj
  | cons a t ih =>
    cases j with
    | zero =>
      cases t with
      | nil => simp at hj
      | cons c t2 =>
        simp only [List.set_cons_zero, List.set_cons_succ, List.getD_cons_succ, List.getD_cons_zero]
        exact List.Perm.swap a c t2
    | succ j2 =>
      simp only [List.set_cons_succ, List.getD_cons_succ]
      exact List.Perm.cons a (ih j2 (by simpa using hj))

theorem swapStep_perm (b : Bool) (l : List Int) (j : Nat) (hj : j + 1 < l.length) :
    List.Perm (swapStep b l j) l := by
  rw [swapStep_eq]; split_ifs
  · exact List.Perm.refl l
  · exact set_set_perm l j hj

theorem pass_inv (b : Bool) (l0 : List Int) (m : Nat) (hm : m < l0.length) :
    PassInv b l0 ((List.range m).foldl (swapStep b) l0) m := by
  induction m with
  | zero =>
    refine ⟨rfl, List.Perm.refl _, fun _ _ => rfl, ?_, ?_⟩
    · intro t ht
      have : t = 0 := by omega
      subst this; exact inOrder_refl _ _
    · intro t ht; exact ⟨t, ht, rfl⟩
  | succ m ih =>
    have I := ih (by omega)
    rw [List.range_succ, List.foldl_append]
    simp only [List.foldl_cons, List.foldl_nil]
    generalize (List.range m).foldl (swapStep b) l0 = l1 at I
    have hlen : m + 1 < l1.length := by rw [I.len]; exact hm
    have P := swapStep_pair b l1 m hlen
    have N := swapStep_getD_of_ne b l1 m
    refine ⟨?_, ?_, ?_, ?_, ?_⟩
    · rw [swapStep_length]; exact I.len
    · exact (swapStep_perm b l1 m hlen).trans I.perm
    · intro k hk
      rw [N k (by omega) (by omega)]; exact I.above k (by omega)
    · intro t ht
      by_cases h1 : t = m + 1
      · subst h1; exact inOrder_refl _ _
      by_cases h2 : t = m
      · subst h2; exact P.1
      rw [N t h2 h1]
      have h3 := I.top t (by omega)
      rcases P.2 with ⟨e1, e2⟩ | ⟨e1, e2⟩
      · have h4 := P.1
        rw [e1] at h4
        exact inOrder_trans h3 h4
      · rw [e2]; exact h3
    · intro t ht
      have hm1 : l1.getD (m + 1) 0 = l0.getD (m + 1) 0 := I.above (m + 1) (by omega)
      obtain ⟨s, hs, hsm⟩ := I.from_prefix m (le_refl m)
      by_cases h1 : t = m + 1
      · subst h1
        rcases P.2 with ⟨_, e2⟩ | ⟨_, e2⟩
        · exact ⟨m + 1, le_refl _, by rw [e2, hm1]⟩
        · exact ⟨s, by omega, by rw [e2, hsm]⟩
      by_cases h2 : t = m
      · subst h2
        rcases P.2 with ⟨e1, _⟩ | ⟨e1, _⟩
        · exact ⟨s, by omega, by rw [e1, hsm]⟩
        · exact ⟨t + 1, le_refl _, by rw [e1, hm1]⟩
      rw [N t h2 h1]
      obtain ⟨s2, hs2, e⟩ := I.from_prefix t (by omega)
      exact ⟨s2, by omega, e⟩

theorem sort_inv (b : Bool) (l0 : List Int) (i : Nat) (hi : i ≤ l0.length) :
    SortInv b l0 ((List.range i).foldl (fun l i => bubblePass b l0.length i l) l0) i := by
  induction i with
  | zero =>
    refine ⟨rfl, List.Perm.refl _, ?_, ?_⟩
    · intro p q h1 h2 h3; omega
    · intro p q h1 h2 h3; omega
  | succ i ih =>
    have I := ih (by omega)
    rw [List.range_succ, List.foldl_append]
    simp only [List.foldl_cons, List.foldl_nil]
    generalize (List.range i).foldl (fun l i => bubblePass b l0.length i l) l0 = l1 at I
    unfold bubblePass
    have hm : l0.length - i - 1 < l1.length := by rw [I.len]; omega
    have J := pass_inv b l1 (l0.length - i - 1) hm
    generalize (List.range (l0.length - i - 1)).foldl (swapStep b) l1 = l2 at J
    refine ⟨J.len.trans I.len, J.perm.trans I.perm, ?_, ?_⟩
    · intro p q h1 h2 h3
      rw [J.above q (by omega)]
      by_cases hp : p = l0.length - i - 1
      · obtain ⟨s, hs, e⟩ := J.from_prefix p (by omega)
        rw [e]
        exact I.tail_dominates s q (by omega) (by omega) h3
      · rw [J.above p (by omega)]
        exact I.tail_sorted p q (by omega) h2 h3
    · intro p q h1 h2 h3
      by_cases hq : q = l0.length - i - 1
      · subst hq
        exact J.top p (by omega)
      · rw [J.above q (by omega)]
        obtain ⟨s, hs, e⟩ := J.from_prefix p (by omega)
        rw [e]
        exact I.tail_dominates s q (by omega) (by omega) h3

theorem pairwise_of_getD (b : Bool) (l : List Int)
    (h : ∀ p q, p < q → q < l.length → inOrder b (l.getD p 0) (l.getD q 0)) :
    List.Pairwise (inOrder b) l := by
  rw [List.pairwise_iff_getElem]
  intro i j hi hj hij
  have := h i j hij hj
  rwa [List.getD_eq_getElem l 0 hi, List.getD_eq_getElem l 0 hj] at this

theorem bubbleSort_spec (S : List Int) (D : Bool) :
    List.Perm (bubbleSort S D S.length) S ∧ List.Pairwise (inOrder D) (bubbleSort S D S.length) := by
  have I := sort_inv D S S.length (le_refl _)
  unfold bubbleSort
  generalize (List.range S.length).foldl (fun l i => bubblePass D S.length i l) S = r at I
  refine ⟨I.perm, pairwise_of_getD D r ?_⟩
  intro p q h1 h2
  exact I.tail_sorted p q (by omega) h1 (by rw [← I.len]; exact h2)

/-! ## merge and mergeSort: lemmas -/

theorem whileLoop_spec {σ : Type} (cond : σ → Bool) (body : σ → σ) (Inv : σ → Prop)
    (μ : σ → Nat)
    (hstep : ∀ s, Inv s → cond s = true → Inv (body s) ∧ μ (body s) < μ s) :
    ∀ fuel s, Inv s → μ s ≤ fuel →
      ∃ s', whileLoop cond body fuel s = some s' ∧ Inv s' ∧ cond s' = false := by
  intro fuel
  induction fuel with
  | zero =>
    intro s hI hμ
    cases hc : cond s with
    | true => have := (hstep s hI hc).2; omega
    | false => exact ⟨s, by simp [whileLoop, hc], hI, hc⟩
  | succ n ih =>
    intro s hI hμ
    cases hc : cond s with
    | true =>
      have h := hstep s hI hc
      obtain ⟨s', h1, h2, h3⟩ := ih (body s) h.1 (by omega)
      exact ⟨s', by simp [whileLoop, hc, h1], h2, h3⟩
    | false => exact ⟨s, by simp [whileLoop, hc], hI, hc⟩

theorem slice_nil (a : List Int) (p q : Int) (h : q ≤ p) : slice a p q = [] := by
  unfold slice
  have : (q - p).toNat = 0 := by omega
  rw [this]; rfl

theorem slice_cons (a : List Int) (p q : Int) (h0 : 0 ≤ p) (h1 : p < q) (h2 : q ≤ a.length) :
    slice a p q = readAt a p :: slice a (p + 1) q := by
  unfold slice readAt
  have hp : p.toNat < a.length := by omega
  have e1 : (q - p).toNat = (q - (p + 1)).toNat + 1 := by omega
  have e2 : (p + 1).toNat = p.toNat + 1 := by omega
  rw [if_neg (by omega), List.drop_eq_getElem_cons hp, e1, List.take_succ_cons, e2,
    List.getD_eq_getElem a 0 hp]

theorem tempSlice_update (temp : Int → Int) (low k v : Int) (h : low ≤ k) :
    tempSlice (Function.update temp k v) low (k + 1) = tempSlice temp low k ++ [v] := by
  unfold tempSlice
  have e : (k + 1 - low).toNat = (k - low).toNat + 1 := by omega
  rw [e, List.range_succ, List.map_append]
  congr 1
  · apply List.map_congr_left
    intro t ht
    rw [List.mem_range] at ht
    rw [Function.update_noteq]
    omega
  · simp only [List.map_cons, List.map_nil]
    have : low + ((k - low).toNat : Int) = k := by omega
    rw [this, Function.update_same]

theorem copyBackReads_succ (low k : Int) (h : low ≤ k) :
    copyBackReads low (k + 1) = copyBackReads low k ++ [k] := by
  unfold copyBackReads
  have e : (k + 1 - low).toNat = (k - low).toNat + 1 := by omega
  rw [e, List.range_succ, List.map_append]
  have : low + ((k - low).toNat : Int) = k := by omega
  simp only [List.map_cons, List.map_nil, this]

theorem takeLeft_inv (a : List Int) (low high mid : Int) (b : Bool) (s : MergeState)
    (h0 : 0 ≤ low) (hmid : mid < a.length)
    (I : MergeInv a low high mid b s) (hi : s.i ≤ mid)
    (hpick : ∀ y ys, slice a s.j (high + 1) = y :: ys → pickLeft b (readAt a s.i) y = true) :
    MergeInv a low high mid b (takeLeft a s) := by
  have hk : low ≤ s.k := by have := I.k_eq; have := I.lo_i; have := I.lo_j; omega
  have hs := slice_cons a s.i (mid + 1) (by have := I.lo_i; omega) (by omega) (by omega)
  refine ⟨?_, ?_, ?_, ?_, ?_, ?_, ?_⟩
  · show low ≤ s.i + 1; have := I.lo_i; omega
  · show s.i + 1 ≤ mid + 1; omega
  · exact I.lo_j
  · exact I.j_hi
  · show s.k + 1 = s.i + 1 + s.j - (mid + 1); have := I.k_eq; omega
  · show tempSlice (Function.update s.tempArray s.k (readAt a s.i)) low (s.k + 1) ++
      List.merge (slice a (s.i + 1) (mid + 1)) (slice a s.j (high + 1)) (pickLeft b) = _
    rw [tempSlice_update _ _ _ _ hk, ← I.content, hs, List.append_assoc]
    congr 1
    cases hR : slice a s.j (high + 1) with
    | nil => simp
    | cons y ys =>
      rw [List.cons_merge_cons, if_pos (hpick y ys hR)]
      rfl
  · show s.k :: s.written = (copyBackReads low (s.k + 1)).reverse
    rw [copyBackReads_succ _ _ hk, I.log]; simp

theorem takeRight_inv (a : List Int) (low high mid : Int) (b : Bool) (s : MergeState)
    (h0 : 0 ≤ low) (hlm : low ≤ mid + 1) (hhigh : high < a.length)
    (I : MergeInv a low high mid b s) (hj : s.j ≤ high)
    (hpick : ∀ x xs, slice a s.i (mid + 1) = x :: xs → pickLeft b x (readAt a s.j) = false) :
    MergeInv a low high mid b (takeRight a s) := by
  have hk : low ≤ s.k := by have := I.k_eq; have := I.lo_i; have := I.lo_j; omega
  have hs := slice_cons a s.j (high + 1) (by have := I.lo_j; omega) (by omega) (by omega)
  refine ⟨?_, ?_, ?_, ?_, ?_, ?_, ?_⟩
  · exact I.lo_i
  · exact I.i_hi
  · show mid + 1 ≤ s.j + 1; have := I.lo_j; omega
  · show s.j + 1 ≤ high + 1; omega
  · show s.k + 1 = s.i + (s.j + 1) - (mid + 1); have := I.k_eq; omega
  · show tempSlice (Function.update s.tempArray s.k (readAt a s.j)) low (s.k + 1) ++
      List.merge (slice a s.i (mid + 1)) (slice a (s.j + 1) (high + 1)) (pickLeft b) = _
    rw [tempSlice_update _ _ _ _ hk, ← I.content, hs, List.append_assoc]
    congr 1
    cases hL : slice a s.i (mid + 1) with
    | nil => simp
    | cons x xs =>
      rw [List.cons_merge_cons, if_neg (by rw [hpick x xs hL]; simp)]
      rfl
  · show s.k :: s.written = (copyBackReads low (s.k + 1)).reverse
    rw [copyBackReads_succ _ _ hk, I.log]; simp

theorem mergeStep_eq (a : List Int) (b : Bool) (s : MergeState) :
    mergeStep a b s =
      if pickLeft b (readAt a s.i) (readAt a s.j) = true then takeLeft a s else takeRight a s := by
  unfold mergeStep pickLeft
  cases b <;> simp

theorem mergeLoops_spec (a : List Int) (low high mid : Int) (b : Bool)
    (h0 : 0 ≤ low) (hlm : low ≤ mid + 1) (hmh : mid ≤ high) (hhigh : high < a.length) :
    ∃ s, mergeLoops a low high mid b = some s ∧ s.k = high + 1 ∧
      tempSlice s.tempArray low (high + 1) =
        List.merge (slice a low (mid + 1)) (slice a (mid + 1) (high + 1)) (pickLeft b) ∧
      s.written = (copyBackReads low (high + 1)).reverse := by
  -- first loop
  have I0 : MergeInv a low high mid b
      { i := low, j := mid + 1, k := low, tempArray := fun _ => 0, written := [] } := by
    refine ⟨le_refl _, hlm, le_refl _, by show mid + 1 ≤ high + 1; omega, by show low = low + (mid + 1) - (mid + 1); omega, ?_, ?_⟩
    · simp [tempSlice]
    · simp [copyBackReads]
  obtain ⟨s1, e1, I1, c1⟩ := whileLoop_spec
    (fun s : MergeState => decide (s.i ≤ mid) && decide (s.j ≤ high)) (mergeStep a b)
    (MergeInv a low high mid b)
    (fun s => (mid - s.i + 1).toNat + (high - s.j + 1).toNat)
    (by
      intro s I hc
      simp only [Bool.and_eq_true, decide_eq_true_eq] at hc
      obtain ⟨hi, hj⟩ := hc
      rw [mergeStep_eq]
      have hsi := slice_cons a s.i (mid + 1) (by have := I.lo_i; omega) (by omega) (by omega)
      have hsj := slice_cons a s.j (high + 1) (by have := I.lo_j; omega) (by omega) (by omega)
      by_cases hp : pickLeft b (readAt a s.i) (readAt a s.j) = true
      · rw [if_pos hp]
        refine ⟨takeLeft_inv a low high mid b s h0 (by omega) I hi ?_, ?_⟩
        · intro y ys hy
          rw [hsj] at hy
          rw [← (List.cons.inj hy).1]; exact hp
        · show (mid - (s.i + 1) + 1).toNat + (high - s.j + 1).toNat <
            (mid - s.i + 1).toNat + (high - s.j + 1).toNat
          omega
      · rw [if_neg hp]
        refine ⟨takeRight_inv a low high mid b s h0 hlm hhigh I hj ?_, ?_⟩
        · intro x xs hx
          rw [hsi] at hx
          rw [← (List.cons.inj hx).1]; simpa using hp
        · show (mid - s.i + 1).toNat + (high - (s.j + 1) + 1).toNat <
            (mid - s.i + 1).toNat + (high - s.j + 1).toNat
          omega)
    ((mid - low + 1).toNat + (high - mid).toNat) _ I0
    (by show (mid - low + 1).toNat + (high - (mid + 1) + 1).toNat ≤ _; omega)
  simp only [Bool.and_eq_false_iff, decide_eq_false_iff_not] at c1
  -- second loop
  obtain ⟨s2, e2, I2, c2⟩ := whileLoop_spec
    (fun s : MergeState => decide (s.i ≤ mid)) (takeLeft a)
    (fun s => MergeInv a low high mid b s ∧ (s.i ≤ mid → high < s.j))
    (fun s => (mid - s.i + 1).toNat)
    (by
      intro s I hc
      simp only [decide_eq_true_eq] at hc
      obtain ⟨I, hj⟩ := I
      refine ⟨⟨takeLeft_inv a low high mid b s h0 (by omega) I hc ?_, fun _ => hj hc⟩, ?_⟩
      · intro y ys hy
        rw [slice_nil a s.j (high + 1) (by have := hj hc; omega)] at hy
        cases hy
      · show (mid - (s.i + 1) + 1).toNat < (mid - s.i + 1).toNat
        omega)
    (mid - s1.i + 1).toNat s1 ⟨I1, fun h => by omega⟩ (le_refl _)
  simp only [decide_eq_false_iff_not] at c2
  -- third loop
  obtain ⟨s3, e3, I3, c3⟩ := whileLoop_spec
    (fun s : MergeState => decide (s.j ≤ high)) (takeRight a)
    (fun s => MergeInv a low high mid b s ∧ mid < s.i)
    (fun s => (high - s.j + 1).toNat)
    (by
      intro s I hc
      simp only [decide_eq_true_eq] at hc
      obtain ⟨I, hi⟩ := I
      refine ⟨⟨takeRight_inv a low high mid b s h0 hlm hhigh I hc ?_, hi⟩, ?_⟩
      · intro x xs hx
        rw [slice_nil a s.i (mid + 1) (by omega)] at hx
        cases hx
      · show (high - (s.j + 1) + 1).toNat < (high - s.j + 1).toNat
        omega)
    (high - s2.j + 1).toNat s2 ⟨I2.1, by omega⟩ (le_refl _)
  simp only [decide_eq_false_iff_not] at c3
  obtain ⟨I3, hi3⟩ := I3
  have hk : s3.k = high + 1 := by
    have := I3.k_eq; have := I3.i_hi; have := I3.j_hi; omega
  refine ⟨s3, ?_, hk, ?_, ?_⟩
  · unfold mergeLoops
    simp only [Option.bind_eq_bind, e1, Option.some_bind, e2, e3]
  · have hc := I3.content
    rw [slice_nil a s3.i (mid + 1) (by omega), slice_nil a s3.j (high + 1) (by omega), hk] at hc
    simpa using hc
  · rw [I3.log, hk]

/-! ## Uniqueness of the arranged permutation -/

theorem orderedIn_iff (D : Bool) (l : List Int) :
    orderedIn D l ↔ List.Pairwise (inOrder D) l := by
  cases D
  · exact Iff.rfl
  · exact Iff.rfl

theorem eq_of_perm_of_pairwise (D : Bool) {l₁ l₂ : List Int} (hp : List.Perm l₁ l₂)
    (h₁ : List.Pairwise (inOrder D) l₁) (h₂ : List.Pairwise (inOrder D) l₂) : l₁ = l₂ := by
  haveI : IsAntisymm Int (inOrder D) := ⟨fun _ _ h1 h2 => inOrder_antisymm h1 h2⟩
  exact List.eq_of_perm_of_sorted hp h₁ h₂

/-! ## Logger and controller: lemmas -/

theorem intercalate_go_snoc (sep a : String) : ∀ (l : List String) (acc : String),
    String.intercalate.go acc sep (l ++ [a]) = String.intercalate.go acc sep l ++ sep ++ a := by
  intro l
  induction l with
  | nil => intro acc; rfl
  | cons b l ih =>
    intro acc
    show String.intercalate.go (acc ++ sep ++ b) sep (l ++ [a]) = _
    rw [ih]; rfl

theorem intercalate_snoc (sep a : String) (l : List String) (h : l ≠ []) :
    String.intercalate sep (l ++ [a]) = String.intercalate sep l ++ sep ++ a := by
  cases l with
  | nil => exact absurd rfl h
  | cons b l => exact intercalate_go_snoc sep a l b

theorem displayNumberList_loop (S : List Int) (m : Nat) (hm : m < S.length) :
    (List.range (m + 1)).foldl
      (fun (fullList : String) (i : Nat) =>
        if i ≠ S.length - 1 then fullList ++ to_string (S.getD i 0) ++ "-"
        else fullList ++ to_string (S.getD i 0)) "" =
    String.intercalate "-" ((S.map to_string).take (m + 1)) ++
      (if m + 1 < S.length then "-" else "") := by
  induction m with
  | zero =>
    cases S with
    | nil => simp at hm
    | cons x t =>
      have e : List.range (0 + 1) = [0] := rfl
      rw [e]
      simp only [List.foldl_cons, List.foldl_nil, List.map_cons, List.take_succ_cons,
        List.take_zero, List.getD_cons_zero, String.intercalate, String.intercalate.go,
        String.empty_append]
      by_cases h : 0 + 1 < (x :: t).length
      · have c : 0 ≠ (x :: t).length - 1 := by omega
        rw [if_pos c, if_pos h]
      · have c : ¬ 0 ≠ (x :: t).length - 1 := by omega
        rw [if_neg c, if_neg h, String.append_empty]
  | succ m ih =>
    rw [List.range_succ, List.foldl_append, ih (by omega)]
    simp only [List.foldl_cons, List.foldl_nil]
    have htake : (S.map to_string).take (m + 1 + 1) =
        (S.map to_string).take (m + 1) ++ [to_string (S.getD (m + 1) 0)] := by
      rw [List.take_succ, List.getElem?_map, List.getElem?_eq_getElem hm,
        List.getD_eq_getElem S 0 hm]
      rfl
    have hne : (S.map to_string).take (m + 1) ≠ [] := by
      cases S with
      | nil => simp at hm
      | cons x t => simp
    have h1 : m + 1 < S.length := hm
    rw [htake, intercalate_snoc _ _ _ hne, if_pos h1]
    by_cases h : m + 1 + 1 < S.length
    · have c : m + 1 ≠ S.length - 1 := by omega
      rw [if_pos c, if_pos h]
    · have c : ¬ m + 1 ≠ S.length - 1 := by omega
      rw [if_neg c, if_neg h, String.append_empty]

theorem displayNumberListText_eq (S : List Int) :
    displayNumberListText S S.length = hyphenJoined S ++ "\n\n" := by
  unfold displayNumberListText hyphenJoined
  congr 1
  cases hS : S.length with
  | zero =>
    have : S = [] := List.length_eq_zero.mp hS
    subst this; rfl
  | succ m =>
    have h := displayNumberList_loop S m (by omega)
    rw [hS] at h
    rw [h, if_neg (by omega), String.append_empty, List.take_of_length_le (by simp [hS])]

theorem createNewLog_false (lg : Logger) (fs : FileSystem) (message : String)
    (numList : List Int) (size : Nat) :
    createNewLog lg fs message false numList size = createNewLogText lg fs message := by
  unfold createNewLog createNewLogText
  simp

theorem readArraySize_skip (pre : List Int) (hpre : ∀ x ∈ pre, x < 10 ∨ 999 < x) :
    ∀ (tail : List Int) (errors : Nat),
      readArraySize (pre ++ tail) errors = readArraySize tail (errors + pre.length) := by
  induction pre with
  | nil => intro tail errors; rfl
  | cons x pre ih =>
    intro tail errors
    have hx : (decide (x < 10) || decide (x > 999)) = true := by
      have := hpre x (List.mem_cons_self x pre)
      simp only [Bool.or_eq_true, decide_eq_true_eq, gt_iff_lt]
      exact this
    show readArraySize (x :: (pre ++ tail)) errors = _
    rw [readArraySize, if_pos hx, ih (fun y hy => hpre y (List.mem_cons_of_mem x hy))]
    congr 1
    simp only [List.length_cons]; omega

theorem fillList_length (size : Nat) (rand : Nat → Nat) : ∀ (nums : List Int),
    (fillList nums size rand).length = nums.length := by
  unfold fillList
  induction size with
  | zero => intro nums; rfl
  | succ n ih =>
    intro nums
    rw [List.range_succ, List.foldl_append]
    simp only [List.foldl_cons, List.foldl_nil, List.length_set]
    exact ih nums

/-! ## Comparison count, segments, termination, reversal: lemmas -/

theorem swapStepComparisons_eq (b : Bool) (l : List Int) (j : Nat) :
    swapStepComparisons b l j = 1 := by
  unfold swapStepComparisons
  cases b
  · simp
  · by_cases h : l.getD j 0 > l.getD (j + 1) 0 <;> simp [h]

theorem bubblePassCounted_eq (b : Bool) (size i : Nat) (p : List Int × Nat) :
    bubblePassCounted b size i p = (bubblePass b size i p.1, p.2 + (size - i - 1)) := by
  unfold bubblePassCounted bubblePass
  generalize size - i - 1 = m
  induction m with
  | zero => rfl
  | succ m ih =>
    rw [List.range_succ, List.foldl_append, List.foldl_append, ih]
    simp only [List.foldl_cons, List.foldl_nil, swapStepComparisons_eq]
    rfl

theorem bubbleSortCounted_fold (b : Bool) (S : List Int) (size i : Nat) (hi : i ≤ size) :
    (List.range i).foldl
        (fun (q : List Int × Nat) (t : Nat) => bubblePassCounted b size t q) (S, 0) =
      ((List.range i).foldl (fun (l : List Int) (t : Nat) => bubblePass b size t l) S,
        (i * (2 * size - i - 1)) / 2) := by
  induction i with
  | zero => simp
  | succ i ih =>
    rw [List.range_succ, List.foldl_append, List.foldl_append, ih (by omega)]
    simp only [List.foldl_cons, List.foldl_nil, bubblePassCounted_eq]
    congr 1
    have h1 : (i + 1) * (2 * size - (i + 1) - 1) = i * (2 * size - i - 1) + 2 * (size - i - 1) := by
      obtain ⟨d, rfl⟩ : ∃ d, size = i + 1 + d := ⟨size - (i + 1), by omega⟩
      have e1 : 2 * (i + 1 + d) - (i + 1) - 1 = i + 2 * d := by omega
      have e2 : 2 * (i + 1 + d) - i - 1 = i + 1 + 2 * d := by omega
      have e3 : i + 1 + d - i - 1 = d := by omega
      rw [e1, e2, e3]; ring
    rw [h1, Nat.add_mul_div_left _ _ (by norm_num : 0 < 2)]

theorem bubbleSortCounted_eq (S : List Int) (D : Bool) (size : Nat) :
    bubbleSortCounted S D size = (bubbleSort S D size, size * (size - 1) / 2) := by
  unfold bubbleSortCounted bubbleSort
  rw [bubbleSortCounted_fold D S size size (le_refl _)]
  congr 2
  congr 1
  omega

/-! ### mergeSort on a segment -/

/-! ### Termination of mergeSort -/

theorem wrapInt32_of_range (x : Int) (h0 : -2147483648 ≤ x) (h1 : x < 2147483648) :
    wrapInt32 x = x := by
  unfold wrapInt32
  omega

theorem midpoint32_of_nonneg (low high : Int) (h0 : 0 ≤ low + high)
    (h1 : low + high < 2147483648) : midpoint32 low high = (low + high) / 2 := by
  unfold midpoint32
  rw [wrapInt32_of_range _ (by omega) h1]
  exact Int.tdiv_eq_ediv h0 (by omega)

theorem merge_undefined (a : List Int) (low high mid : Int) (b : Bool)
    (h0 : 0 ≤ low) (hlm : low ≤ mid) (hmh : mid < high) (hhigh : high < a.length) :
    merge a low high mid b = none := by
  obtain ⟨s, e, _, _, hw⟩ := mergeLoops_spec a low high mid b h0 (by omega) (by omega) hhigh
  have hmem : high ∈ s.written := by
    rw [hw, List.mem_reverse, copyBackReads_succ low high (by omega)]
    simp
  have hout : inTempArray high high = false := by
    simp [inTempArray, tempArrayLength]
  have hall : s.written.all (inTempArray high) = false := by
    rw [List.all_eq_false]
    exact ⟨high, hmem, by rw [hout]; simp⟩
  unfold merge
  rw [e]
  simp only [hall, Bool.false_and, Bool.false_eq_true, if_false]

theorem mergeSortAux_of_not_lt (fuel : Nat) (a : List Int) (b : Bool) (low high : Int)
    (h : ¬ low < high) : mergeSortAux fuel a b low high = some a := by
  cases fuel with
  | zero => rw [mergeSortAux, if_neg h]
  | succ n => rw [mergeSortAux, if_neg h]

theorem mergeSortAux_undefined (b : Bool) (a : List Int) : ∀ (fuel : Nat) (low high : Int),
    0 ≤ low → low < high → high < a.length → high ≤ 1073741824 →
    mergeSortAux fuel a b low high = none := by
  intro fuel
  induction fuel with
  | zero =>
    intro low high _ hlt _ _
    rw [mergeSortAux, if_pos hlt]
  | succ n ih =>
    intro low high h0 hlt hhigh hbound
    have hmid : midpoint32 low high = (low + high) / 2 :=
      midpoint32_of_nonneg low high (by omega) (by omega)
    rw [mergeSortAux, if_pos hlt, hmid]
    generalize hm : (low + high) / 2 = mid
    have hm1 : low ≤ mid := by omega
    have hm2 : mid < high := by omega
    simp only [Option.bind_eq_bind]
    by_cases h1 : low < mid
    · rw [ih low mid h0 h1 (by omega) (by omega)]
      rfl
    · rw [mergeSortAux_of_not_lt n a b low mid h1]
      simp only [Option.some_bind]
      by_cases h2 : mid + 1 < high
      · rw [ih (mid + 1) high (by omega) h2 hhigh hbound]
        rfl
      · rw [mergeSortAux_of_not_lt n a b (mid + 1) high h2]
        simp only [Option.some_bind]
        exact merge_undefined a low high mid b h0 hm1 hm2 hhigh

theorem mergeSort_undefined (a : List Int) (b : Bool) (low high : Int)
    (h0 : 0 ≤ low) (hlt : low < high) (hhigh : high < a.length) (hbound : high ≤ 1073741824) :
    mergeSort a b low high = none :=
  mergeSortAux_undefined b a _ low high h0 hlt hhigh hbound

/-! ### The recursion of mergeSort -/

theorem mergeSortReturns_of_not_lt (fuel : Nat) (low high : Int) (h : ¬ low < high) :
    mergeSortReturns fuel low high = true := by
  cases fuel with
  | zero => simp [mergeSortReturns, h]
  | succ n => rw [mergeSortReturns, if_neg h]

theorem mergeSortAux_none_of_not_returns (b : Bool) : ∀ (fuel : Nat) (a : List Int)
    (low high : Int), mergeSortReturns fuel low high = false →
    mergeSortAux fuel a b low high = none := by
  intro fuel
  induction fuel with
  | zero =>
    intro a low high h
    have hlt : low < high := by
      by_contra hn
      rw [mergeSortReturns_of_not_lt 0 low high hn] at h
      cases h
    rw [mergeSortAux, if_pos hlt]
  | succ n ih =>
    intro a low high h
    have hlt : low < high := by
      by_contra hn
      rw [mergeSortReturns_of_not_lt _ low high hn] at h
      cases h
    rw [mergeSortReturns, if_pos hlt, Bool.and_eq_false_iff] at h
    rw [mergeSortAux, if_pos hlt]
    simp only [Option.bind_eq_bind]
    rcases h with h | h
    · rw [ih a low _ h]; rfl
    · cases h1 : mergeSortAux n a b low (midpoint32 low high) with
      | none => rfl
      | some l1 =>
        simp only [Option.some_bind]
        rw [ih l1 _ high h]; rfl

/-! ### Direction reversal -/

theorem pairwise_reverse_inOrder (l : List Int) (h : List.Pairwise (inOrder true) l) :
    List.Pairwise (inOrder false) l.reverse := by
  rw [List.pairwise_reverse]
  exact h

theorem bubbleSort_reverse (S : List Int) :
    bubbleSort S false S.length = (bubbleSort S true S.length).reverse := by
  have ha := bubbleSort_spec S true
  have hd := bubbleSort_spec S false
  exact eq_of_perm_of_pairwise false
    (hd.1.trans ((List.reverse_perm _).trans ha.1).symm) hd.2
    (pairwise_reverse_inOrder _ ha.2)

theorem bubbleSort_of_ordered (S : List Int) (D : Bool) (h : orderedIn D S) :
    bubbleSort S D S.length = S :=
  eq_of_perm_of_pairwise D (bubbleSort_spec S D).1 (bubbleSort_spec S D).2
    ((orderedIn_iff D S).mp h)

/-! ## Logger frame and controller invariant: lemmas -/

/-! ### Logger -/

theorem createNewLogText_frame (lg : Logger) (fs : FileSystem) (message path : String)
    (h : path ≠ lg.pathFile) : createNewLogText lg fs message path = fs path := by
  unfold createNewLogText
  split
  · rfl
  · exact Function.update_noteq h _ _

theorem createNewLog_frame (lg : Logger) (fs : FileSystem) (message : String)
    (getNumberList : Bool) (numList : List Int) (size : Nat) (path : String)
    (h : path ≠ lg.pathFile) :
    createNewLog lg fs message getNumberList numList size path = fs path := by
  unfold createNewLog
  split
  · rfl
  · split
    · exact createNewLogText_frame lg fs _ path h
    · exact Function.update_noteq h _ _

theorem runLoggerCall_frame (s : Logger × FileSystem) (c : LoggerCall) :
    (runLoggerCall s c).1.pathFile = s.1.pathFile ∧
      (runLoggerCall s c).1.fileName = s.1.fileName ∧
      ∀ path, path ≠ s.1.pathFile → (runLoggerCall s c).2 path = s.2 path := by
  cases c with
  | setTimeStamp now => exact ⟨rfl, rfl, fun _ _ => rfl⟩
  | getTimeStamp now => exact ⟨rfl, rfl, fun _ _ => rfl⟩
  | createNewLog message getNumberList numList size =>
    exact ⟨rfl, rfl, fun path h => createNewLog_frame s.1 s.2 _ _ _ _ path h⟩
  | displayNumberList numList size =>
    exact ⟨rfl, rfl, fun path h => createNewLogText_frame s.1 s.2 _ path h⟩

theorem runLoggerCalls_frame (calls : List LoggerCall) : ∀ (s : Logger × FileSystem),
    (calls.foldl runLoggerCall s).1.pathFile = s.1.pathFile ∧
      (calls.foldl runLoggerCall s).1.fileName = s.1.fileName ∧
      ∀ path, path ≠ s.1.pathFile → (calls.foldl runLoggerCall s).2 path = s.2 path := by
  induction calls with
  | nil => intro s; exact ⟨rfl, rfl, fun _ _ => rfl⟩
  | cons c cs ih =>
    intro s
    obtain ⟨h1, h2, h3⟩ := runLoggerCall_frame s c
    obtain ⟨g1, g2, g3⟩ := ih (runLoggerCall s c)
    refine ⟨g1.trans h1, g2.trans h2, ?_⟩
    intro path hp
    rw [List.foldl_cons, g3 path (by rw [h1]; exact hp), h3 path hp]

/-! ### Controller -/

theorem fillList_getD (size : Nat) (rand : Nat → Nat) (nums : List Int) (i : Nat) :
    (fillList nums size rand).getD i 0 =
      if i < size ∧ i < nums.length then ((rand i % LIMIT : Nat) : Int) + 1
      else nums.getD i 0 := by
  unfold fillList
  induction size with
  | zero => simp
  | succ n ih =>
    rw [List.range_succ, List.foldl_append]
    simp only [List.foldl_cons, List.foldl_nil]
    rw [getD_set_eq, ih]
    have hl := fillList_length n rand nums
    unfold fillList at hl
    rw [hl]
    by_cases h1 : n = i
    · subst h1
      by_cases h2 : n < nums.length
      · rw [if_pos ⟨rfl, h2⟩, if_pos ⟨by omega, h2⟩]
      · rw [if_neg (fun h => h2 h.2), if_neg (fun h => h2 h.2), if_neg (fun h => h2 h.2)]
    · rw [if_neg (fun h => h1 h.1)]
      by_cases h3 : i < n ∧ i < nums.length
      · rw [if_pos h3, if_pos ⟨by omega, h3.2⟩]
      · rw [if_neg h3, if_neg (fun h => h3 ⟨by omega, h.2⟩)]

theorem fillList_mem (size : Nat) (rand : Nat → Nat) (nums : List Int)
    (h : nums.length ≤ size) : ∀ x ∈ fillList nums size rand, 1 ≤ x ∧ x ≤ 1000 := by
  intro x hx
  obtain ⟨i, hi, rfl⟩ := List.getElem_of_mem hx
  have hl := fillList_length size rand nums
  have e := fillList_getD size rand nums i
  rw [List.getD_eq_getElem _ 0 hi, if_pos ⟨by omega, by omega⟩] at e
  rw [e]
  have : rand i % LIMIT < 1000 := Nat.mod_lt _ (by decide)
  omega

theorem readArraySize_range : ∀ (input : List Int) (errors : Nat) (p : SizePrompt),
    readArraySize input errors = some p → 10 ≤ p.arraySize ∧ p.arraySize ≤ 999 := by
  intro input
  induction input with
  | nil => intro errors p h; simp [readArraySize] at h
  | cons v rest ih =>
    intro errors p h
    rw [readArraySize] at h
    split at h
    · exact ih _ p h
    · rename_i hv
      simp only [Bool.or_eq_true, decide_eq_true_eq, not_or, not_lt] at hv
      obtain rfl := Option.some.inj h
      exact ⟨hv.1, hv.2⟩

theorem regenerate_ok (input : List Int) (rand : Nat → Nat) (n : Int) (l : List Int)
    (h : regenerate input rand = some (n, l)) :
    10 ≤ n ∧ n ≤ 999 ∧ (l.length : Int) = n ∧ ∀ x ∈ l, 1 ≤ x ∧ x ≤ 1000 := by
  unfold regenerate at h
  cases hp : readArraySize input 0 with
  | none => rw [hp] at h; cases h
  | some p =>
    rw [hp] at h
    simp only [Option.some.injEq, Prod.mk.injEq] at h
    obtain ⟨rfl, rfl⟩ := h
    have hr := readArraySize_range input 0 p hp
    refine ⟨hr.1, hr.2, ?_, ?_⟩
    · rw [fillList_length, List.length_replicate]; omega
    · exact fillList_mem _ rand _ (by rw [List.length_replicate])

theorem initialSession_ok (now : Clock) (local_tm : Tm) (rand : Nat → Nat) (userInput : Char)
    (files : FileSystem) : SequenceOk (initialSession now local_tm rand userInput files) := by
  simp only [SequenceOk, initialSession]
  refine ⟨by norm_num, by norm_num, ?_, ?_⟩
  · rw [fillList_length, List.length_replicate]
  · exact fillList_mem 50 rand _ (by rw [List.length_replicate])

theorem SequenceOk_of_perm (st : Session) (l : List Int) (Logs : Option Logger)
    (files : FileSystem) (h : SequenceOk st) (hp : List.Perm l st.numberList) :
    SequenceOk { st with numberList := l, Logs := Logs, files := files } := by
  obtain ⟨h1, h2, h3, h4⟩ := h
  refine ⟨h1, h2, ?_, ?_⟩
  · show (l.length : Int) = st.arraySize
    rw [hp.length_eq]; exact h3
  · intro x hx
    exact h4 x (hp.mem_iff.mp hx)

theorem menuStep_mergeSort_none (st : Session) (inp : MenuInput) (h : SequenceOk st)
    (h1 : inp.userInput ≠ '1') (h2 : inp.userInput = '2') : menuStep st inp = none := by
  have hu := mergeSort_undefined st.numberList (determineSortOrder inp.order) 0
    (st.arraySize - 1) (le_refl 0) (by have := h.1; omega)
    (by have := h.2.2.1; omega) (by have := h.2.1; omega)
  unfold menuStep
  rw [if_neg h1, if_pos h2]
  simp only [hu]

theorem menuStep_ok (st st' : Session) (inp : MenuInput) (h : SequenceOk st)
    (hs : menuStep st inp = some st') : SequenceOk st' := by
  have hlen : st.arraySize.toNat = st.numberList.length := by have := h.2.2.1; omega
  by_cases h1 : inp.userInput = '1'
  · unfold menuStep at hs
    rw [if_pos h1] at hs
    cases hs
    apply SequenceOk_of_perm st _ _ _ h
    rw [hlen]
    exact (bubbleSort_spec st.numberList _).1
  by_cases h2 : inp.userInput = '2'
  · rw [menuStep_mergeSort_none st inp h h1 h2] at hs
    cases hs
  unfold menuStep at hs
  rw [if_neg h1, if_neg h2] at hs
  split at hs
  · cases hs; exact h
  split at hs
  · cases hr : regenerate inp.sizes inp.rand with
    | none => rw [hr] at hs; cases hs
    | some q =>
      obtain ⟨n, l⟩ := q
      rw [hr] at hs
      cases hs
      exact regenerate_ok _ _ n l hr
  split at hs
  · cases hs; exact h
  · cases hs; exact h

theorem reachable_ok (init st : Session) (h0 : SequenceOk init) (h : Reachable init st) :
    SequenceOk st := by
  induction h with
  | start => exact h0
  | step st st' inp _ _ hs ih => exact menuStep_ok st st' inp ih hs

/-! ## Claims -/

/-- C1: for every integer array `S` and direction `D`, `bubbleSort(S, D, n)` with `n` the
length of `S` leaves a permutation of the original values, non-decreasing when `D` is
ascending and non-increasing when `D` is descending; ascending on `[5,3,8,1]` gives
`[1,3,5,8]`. -/
theorem bubbleSort_sorts (S : List Int) (D : Bool) :
    List.Perm (bubbleSort S D S.length) S ∧ orderedIn D (bubbleSort S D S.length) ∧
      bubbleSort [5, 3, 8, 1] true 4 = [1, 3, 5, 8] :=
  ⟨(bubbleSort_spec S D).1, (orderedIn_iff D _).mpr (bubbleSort_spec S D).2, by decide⟩

/-- C2 (fails on the code): the controller's call `mergeSort({5,3,8,1}, descending, 0, 3)`
has no defined result.  Its first call of `merge` is `merge(_, 0, 1, 0, _)`, whose buffer
`int tempArray[1]` is written at the indices 0 and 1; index 1 is outside the buffer. -/
theorem mergeSort_overrun_example :
    mergeSort [5, 3, 8, 1] false 0 3 = none ∧ merge [5, 3, 8, 1] 0 1 0 false = none ∧
      (mergeLoops [5, 3, 8, 1] 0 1 0 false).map (fun s => s.written) = some [1, 0] ∧
      inTempArray 1 1 = false := by
  decide

/-- Every call of `merge` with `0 ≤ low ≤ mid < high` inside the array writes the buffer
at the indices `low, ..., high` and the copy-back reads the same indices; the index `high`
is outside the array declared as `int tempArray[high]`. -/
theorem merge_writes_index_high (a : List Int) (low high mid : Int) (b : Bool)
    (h0 : 0 ≤ low) (hlm : low ≤ mid) (hmh : mid < high) (hhigh : high < a.length) :
    ∃ s, mergeLoops a low high mid b = some s ∧ s.k = high + 1 ∧ high ∈ s.written ∧
      high ∈ copyBackReads low s.k ∧ inTempArray high high = false := by
  obtain ⟨s, e, hk, _, hw⟩ := mergeLoops_spec a low high mid b h0 (by omega) (by omega) hhigh
  have hmem : high ∈ copyBackReads low (high + 1) := by
    rw [copyBackReads_succ low high (by omega)]
    simp
  refine ⟨s, e, hk, ?_, ?_, ?_⟩
  · rw [hw]; exact List.mem_reverse.mpr hmem
  · rw [hk]; exact hmem
  · simp [inTempArray, tempArrayLength]

/-- C3 (fails on the code): in `merge([2,1], low = 0, high = 1, mid = 0)` the buffer is
declared with `high = 1` element, the loops write it at the indices 0 and 1 and the
copy-back reads the indices 0 and 1, so index 1 is written and read outside the declared
bounds. -/
theorem merge_tempArray_overrun :
    (mergeLoops [2, 1] 0 1 0 true).map (fun s => (s.written, s.k)) = some ([1, 0], 2) ∧
      copyBackReads 0 2 = [0, 1] ∧ tempArrayLength 1 = 1 ∧ inTempArray 1 1 = false ∧
      ¬ (∀ idx ∈ [1, 0], inTempArray 1 idx = true) := by
  decide

/-- C4 (as stated, fails): with equal heads `numberList[i] = numberList[j]` in
`[1, 1]` (`i = 0`, `j = 1`), the loop body does not advance `i` and does advance `j`, in
both directions. -/
theorem mergeStep_tie_not_left :
    readAt [1, 1] 0 = readAt [1, 1] 1 ∧
    (∀ D : Bool,
      ¬ ((mergeStep [1, 1] D
            { i := 0, j := 1, k := 0, tempArray := fun _ => 0, written := [] }).i = 0 + 1 ∧
          (mergeStep [1, 1] D
            { i := 0, j := 1, k := 0, tempArray := fun _ => 0, written := [] }).j = 1)) := by
  decide

/-- C4 (amended): in `merge`, for both directions, whenever the current heads of the two
runs are equal, the element taken next into the temporary buffer is the right run's
element: `j` advances by one, `i` does not, and `tempArray[k]` receives `numberList[j]`. -/
theorem mergeStep_tie_takes_right (numberList : List Int) (D : Bool) (s : MergeState)
    (h : readAt numberList s.i = readAt numberList s.j) :
    (mergeStep numberList D s).i = s.i ∧ (mergeStep numberList D s).j = s.j + 1 ∧
      (mergeStep numberList D s).k = s.k + 1 ∧
      (mergeStep numberList D s).tempArray s.k = readAt numberList s.j := by
  have hp : ¬ pickLeft D (readAt numberList s.i) (readAt numberList s.j) = true := by
    rw [h]; unfold pickLeft; cases D <;> simp
  rw [mergeStep_eq, if_neg hp]
  refine ⟨rfl, rfl, rfl, ?_⟩
  show Function.update s.tempArray s.k (readAt numberList s.j) s.k = _
  rw [Function.update_same]

/-- Instance of the amended C4 at the equal heads of `[1, 1]`, ascending. -/
theorem mergeStep_tie_takes_right_witness :
    readAt [1, 1] 0 = readAt [1, 1] 1 ∧
    (mergeStep [1, 1] true
        { i := 0, j := 1, k := 0, tempArray := fun _ => 0, written := [] }).i = 0 ∧
    (mergeStep [1, 1] true
        { i := 0, j := 1, k := 0, tempArray := fun _ => 0, written := [] }).j = 1 + 1 :=
  ⟨by decide,
    (mergeStep_tie_takes_right [1, 1] true
      { i := 0, j := 1, k := 0, tempArray := fun _ => 0, written := [] } (by decide)).1,
    (mergeStep_tie_takes_right [1, 1] true
      { i := 0, j := 1, k := 0, tempArray := fun _ => 0, written := [] } (by decide)).2.1⟩

/-- C5 (fails on the code): on `{5,3,8,1}` ascending, `bubbleSort` returns `[1,3,5,8]`
while `mergeSort` has no defined result, because its first `merge` writes outside the
buffer `int tempArray[1]`. -/
theorem mergeSort_bubbleSort_differ_example :
    bubbleSort [5, 3, 8, 1] true 4 = [1, 3, 5, 8] ∧ mergeSort [5, 3, 8, 1] true 0 3 = none ∧
      merge [5, 3, 8, 1] 0 1 0 true = none := by
  decide

/-- C6 (fails on the code): on the already non-decreasing array `{1,2}`, ascending,
`bubbleSort` returns `[1,2]` while `mergeSort` has no defined result: `merge(_, 0, 1, 0, _)`
still writes index 1 of the buffer `int tempArray[1]`. -/
theorem mergeSort_ordered_overrun_example :
    bubbleSort [1, 2] true 2 = [1, 2] ∧ mergeSort [1, 2] true 0 1 = none ∧
      (mergeLoops [1, 2] 0 1 0 true).map (fun s => s.written) = some [1, 0] := by
  decide

/-- C7: for every array of length 0 or 1 and every direction, `bubbleSort(S, D, n)` and
`mergeSort(S, D, 0, n - 1)` leave the array unchanged, and `mergeSort` makes no call of
`merge`, hence no read or write of an element; for length 0 the call is
`mergeSort(S, D, 0, -1)`. -/
theorem sort_short_unchanged (S : List Int) (D : Bool) (h : S.length ≤ 1) :
    bubbleSort S D S.length = S ∧ mergeSort S D 0 ((S.length : Int) - 1) = some S ∧
      mergeCalls 0 ((S.length : Int) - 1) = [] ∧
      mergeSort [] D 0 (-1) = some [] ∧ mergeCalls 0 (-1) = [] := by
  refine ⟨?_, ?_, ?_, ?_, by decide⟩
  · match S, h with
    | [], _ => rfl
    | [x], _ => rfl
  · match S, h with
    | [], _ => rfl
    | [x], _ => rfl
  · match S, h with
    | [], _ => rfl
    | [x], _ => rfl
  · cases D <;> rfl

/-- Instance of C7 at the empty array. -/
theorem sort_short_unchanged_witness :
    ([] : List Int).length ≤ 1 ∧ bubbleSort [] true 0 = [] ∧
      mergeSort [] true 0 (-1) = some [] ∧ mergeCalls 0 (-1) = [] :=
  ⟨by decide, (sort_short_unchanged [] true (by decide)).1,
    (sort_short_unchanged [] true (by decide)).2.2.2.1,
    (sort_short_unchanged [] true (by decide)).2.2.2.2⟩

/-- C8: for every integer array of length `n`, the text that `displayNumberList` passes
on to be appended is the decimal renderings of the elements in order joined by single
hyphens, followed by exactly two newlines; for `n = 0` it is exactly two newlines, and
`[1,2,3]` gives `"1-2-3\n\n"`. -/
theorem displayNumberList_text (lg : Logger) (fs : FileSystem) (S : List Int) :
    displayNumberListText S S.length = hyphenJoined S ++ "\n\n" ∧
      displayNumberList lg fs S S.length =
        createNewLog lg fs (hyphenJoined S ++ "\n\n") false [] 0 ∧
      displayNumberListText [] 0 = "\n\n" ∧
      displayNumberListText [1, 2, 3] 3 = "1-2-3\n\n" := by
  refine ⟨displayNumberListText_eq S, ?_, by decide, by decide⟩
  rw [createNewLog_false, ← displayNumberListText_eq S]
  rfl

/-- C9: with the log file as explicit state, `createNewLog(message, false, ...)` on a file
that can be opened leaves its content equal to the previous content followed by `message`
and leaves every other file as it was; when the file cannot be opened nothing changes.
The function has no result, so no error reaches the caller. -/
theorem createNewLog_appends (lg : Logger) (fs : FileSystem) (message : String)
    (numList : List Int) (size : Nat) :
    if (fs lg.pathFile).canOpen = true then
      (createNewLog lg fs message false numList size lg.pathFile).content =
          (fs lg.pathFile).content ++ message ∧
        (createNewLog lg fs message false numList size lg.pathFile).canOpen = true ∧
        ∀ path, path ≠ lg.pathFile →
          createNewLog lg fs message false numList size path = fs path
    else createNewLog lg fs message false numList size = fs := by
  unfold createNewLog
  by_cases h : (fs lg.pathFile).canOpen = true
  · rw [if_pos h]
    simp only [h, Bool.not_true, Bool.false_eq_true, if_false, Function.update_same,
      true_and]
    intro path hp
    exact Function.update_noteq hp _ _
  · rw [if_neg h]
    simp [h]

/-- C10: during regeneration, when the values entered at the size prompt are `pre`, all
below 10 or above 999, followed by a value `v` with `10 ≤ v ≤ 999`, the size accepted is
`v` itself, the error message is printed once for each value of `pre`, the input after `v`
is left unread, and the sequence is regenerated with `v` elements; on the values `pre`
alone no size is accepted and nothing is regenerated. -/
theorem readArraySize_first_valid (pre post : List Int) (v : Int) (rand : Nat → Nat)
    (hpre : ∀ x ∈ pre, x < 10 ∨ 999 < x) (hv : 10 ≤ v ∧ v ≤ 999) :
    readArraySize (pre ++ v :: post) 0 =
        some { arraySize := v, errors := pre.length, rest := post } ∧
      (regenerate (pre ++ v :: post) rand).map (fun r => (r.1, (r.2.length : Int))) =
        some (v, v) ∧
      readArraySize pre 0 = none ∧ regenerate pre rand = none := by
  have hv' : (decide (v < 10) || decide (v > 999)) = false := by
    simp only [Bool.or_eq_false_iff, decide_eq_false_iff_not, gt_iff_lt]
    omega
  have e1 : readArraySize (pre ++ v :: post) 0 =
      some { arraySize := v, errors := pre.length, rest := post } := by
    rw [readArraySize_skip pre hpre, readArraySize, hv']
    simp
  have e2 : readArraySize pre 0 = none := by
    have := readArraySize_skip pre hpre [] 0
    rw [List.append_nil] at this
    rw [this]; rfl
  refine ⟨e1, ?_, e2, ?_⟩
  · unfold regenerate
    rw [e1]
    simp only [Option.map_some', fillList_length, List.length_replicate]
    congr 2
    omega
  · unfold regenerate
    rw [e2]

/-- Instance of C10: entering 5 then 10 yields size 10 after one error message. -/
theorem readArraySize_first_valid_witness :
    (∀ x ∈ [(5 : Int)], x < 10 ∨ 999 < x) ∧ ((10 : Int) ≤ 10 ∧ (10 : Int) ≤ 999) ∧
      readArraySize ([5] ++ 10 :: []) 0 =
        some { arraySize := 10, errors := 1, rest := [] } :=
  ⟨by decide, by decide,
    (readArraySize_first_valid [5] [] 10 (fun _ => 0) (by decide) (by decide)).1⟩

/-- C11: for every requested size `n` and every stream of non-negative values returned
by `rand()`, `fillList(nums, n)` on an array of at least `n` elements writes exactly the
positions `0, ..., n - 1`, and each written value is `(rand() % 1000) + 1`, which lies
between 1 and 1000. -/
theorem fillList_writes (nums : List Int) (size : Nat) (rand : Nat → Nat)
    (h : size ≤ nums.length) :
    (fillList nums size rand).length = nums.length ∧
      (∀ i, i < size →
        (fillList nums size rand).getD i 0 = ((rand i % 1000 : Nat) : Int) + 1 ∧
          1 ≤ (fillList nums size rand).getD i 0 ∧ (fillList nums size rand).getD i 0 ≤ 1000) ∧
      (∀ i, size ≤ i → (fillList nums size rand).getD i 0 = nums.getD i 0) := by
  refine ⟨fillList_length size rand nums, ?_, ?_⟩
  · intro i hi
    have e : (fillList nums size rand).getD i 0 = ((rand i % 1000 : Nat) : Int) + 1 := by
      rw [fillList_getD, if_pos ⟨hi, by omega⟩]; rfl
    have hlt : rand i % 1000 < 1000 := Nat.mod_lt _ (by decide)
    rw [e]
    exact ⟨rfl, by omega, by omega⟩
  · intro i hi
    rw [fillList_getD, if_neg (by omega)]

/-- Instance of C11: three calls of `rand()` returning 1998, 1999, 2000 fill an array of
three elements with 999, 1000, 1. -/
theorem fillList_writes_witness :
    3 ≤ ([0, 0, 0] : List Int).length ∧
      (fillList [0, 0, 0] 3 (fun i => 1998 + i)).length = ([0, 0, 0] : List Int).length ∧
      fillList [0, 0, 0] 3 (fun i => 1998 + i) = [999, 1000, 1] :=
  ⟨by decide, (fillList_writes [0, 0, 0] 3 (fun i => 1998 + i) (by decide)).1, by decide⟩

/-- C12 (fails on the code): the command '2' in the initial state (50 elements) calls
`mergeSort(numberList, _, 0, 49)`, whose first `merge(_, 0, 1, 0, _)` writes outside the
buffer `int tempArray[1]`; the iteration has no defined result, so nothing is guaranteed
of the sequence after a merge sort. -/
theorem menuStep_mergeSort_overrun_example :
    menuStep exampleStart exampleMergeSort = none ∧
      mergeSort exampleStart.numberList true 0 (exampleStart.arraySize - 1) = none ∧
      merge exampleStart.numberList 0 1 0 true = none := by
  have hok : SequenceOk exampleStart := initialSession_ok _ _ _ _ _
  refine ⟨menuStep_mergeSort_none exampleStart exampleMergeSort hok (by decide) rfl, ?_, ?_⟩
  · exact mergeSort_undefined _ _ 0 _ (le_refl 0) (by have := hok.1; omega)
      (by have := hok.2.2.1; omega) (by have := hok.2.1; omega)
  · exact merge_undefined _ 0 1 0 true (le_refl 0) (le_refl 0) (by decide)
      (by have := hok.2.2.1; have := hok.1; omega)

/-- C13: for every broken-down local time with `tm_year = y`, `tm_mon = m` and
`tm_mday = d`, the constructor sets the path to `"Logs/"`, the decimal of `y + 1900`, a
hyphen, the decimal of `m + 1`, a hyphen, the decimal of `d` and `".txt"`; month and day
are not zero-padded: 7 March 2024 gives `Logs/2024-3-7.txt`, and every value from 1 to 9
is rendered by one character. -/
theorem newLogger_pathFile (now : Clock) (local_tm : Tm) :
    (newLogger now local_tm).pathFile =
        "Logs/" ++ to_string (local_tm.tm_year + 1900) ++ "-" ++
          to_string (local_tm.tm_mon + 1) ++ "-" ++ to_string local_tm.tm_mday ++ ".txt" ∧
      (newLogger now local_tm).fileName =
        to_string (local_tm.tm_year + 1900) ++ "-" ++
          to_string (local_tm.tm_mon + 1) ++ "-" ++ to_string local_tm.tm_mday ++ ".txt" ∧
      (newLogger now { tm_year := 124, tm_mon := 2, tm_mday := 7 }).pathFile =
        "Logs/2024-3-7.txt" ∧
      (∀ v ∈ List.range 9, (to_string ((v : Int) + 1)).length = 1) := by
  refine ⟨?_, rfl, rfl, by decide⟩
  show "Logs/" ++ (to_string (local_tm.tm_year + 1900) ++ "-" ++
    to_string (local_tm.tm_mon + 1) ++ "-" ++ to_string local_tm.tm_mday ++ ".txt") = _
  simp only [String.append_assoc]

/-- C14: after construction, every sequence of `Logger` operations (`setTimeStamp`,
`getTimeStamp`, `createNewLog`, `displayNumberList`), whatever the clock readings, leaves
the stored path and file name unchanged and leaves every file other than the one at that
path as it was: all entries go to the same file, and only the timestamp fields of the
object change. -/
theorem logger_path_fixed (calls : List LoggerCall) (lg : Logger) (fs : FileSystem) :
    (calls.foldl runLoggerCall (lg, fs)).1.pathFile = lg.pathFile ∧
      (calls.foldl runLoggerCall (lg, fs)).1.fileName = lg.fileName ∧
      ∀ path, path ≠ lg.pathFile → (calls.foldl runLoggerCall (lg, fs)).2 path = fs path :=
  runLoggerCalls_frame calls (lg, fs)

/-- C16 (as stated, fails): on the array `[5,3,8,1]` of length 4, `bubbleSort` makes 6
element comparisons, not `4 ^ 2 = 16`. -/
theorem bubbleSort_comparisons_not_square :
    (bubbleSortCounted [5, 3, 8, 1] true 4).2 = 6 ∧
      (bubbleSortCounted [5, 3, 8, 1] true 4).2 ≠ 4 ^ 2 := by
  decide

/-- C16 (amended): for every array of length `n` and every direction, `bubbleSort`
performs exactly `n (n - 1) / 2` adjacent-pair comparisons, irrespective of the contents
of the array: pass `i` makes `n - i - 1` of them and no pass is cut short.  The counted
function returns the same array as `bubbleSort`. -/
theorem bubbleSort_comparisons (S : List Int) (D : Bool) :
    (bubbleSortCounted S D S.length).1 = bubbleSort S D S.length ∧
      (bubbleSortCounted S D S.length).2 = S.length * (S.length - 1) / 2 ∧
      ∀ i, (bubblePassCounted D S.length i (S, 0)).2 = S.length - i - 1 := by
  rw [bubbleSortCounted_eq]
  refine ⟨rfl, rfl, ?_⟩
  intro i
  rw [bubblePassCounted_eq]
  simp

/-- C17 (fails on the code): `mergeSort({9,4,7,1,8}, ascending, 1, 3)` has no defined
result.  Its first call of `merge` is `merge(_, 1, 2, 1, _)`, whose buffer
`int tempArray[2]` is written at the indices 1 and 2; index 2 is outside the buffer. -/
theorem mergeSort_segment_overrun_example :
    mergeSort [9, 4, 7, 1, 8] true 1 3 = none ∧ merge [9, 4, 7, 1, 8] 1 2 1 true = none ∧
      (mergeLoops [9, 4, 7, 1, 8] 1 2 1 true).map (fun s => s.written) = some [2, 1] ∧
      inTempArray 2 2 = false := by
  decide

/-- C19 (fails on the code): on `{2,1}` the descending result of `bubbleSort` is the
reversal of its ascending result, but `mergeSort` has no defined result in either
direction: `merge(_, 0, 1, 0, _)` writes index 1 of the buffer `int tempArray[1]`. -/
theorem mergeSort_reverse_overrun_example :
    bubbleSort [2, 1] false 2 = (bubbleSort [2, 1] true 2).reverse ∧
      mergeSort [2, 1] false 0 1 = none ∧ mergeSort [2, 1] true 0 1 = none ∧
      (mergeLoops [2, 1] 0 1 0 false).map (fun s => s.written) = some [1, 0] := by
  decide

end Pt5
